import Mathlib

/-!
A shallow embedding of the `bili` danmaku streaming client core
(`src/live/ws.rs`, `src/live/mod.rs`, `src/lib.rs`), together with proofs
about its packet codec, zlib-container unwrap loop, failover supervisor
and REST-envelope handling.

Modelling conventions:
* byte strings are `List Nat`, each element standing for one `u8`
  (readers reduce every element mod 256, exactly as the bit-level reader
  of the `deku` derive sees only 8 bits per byte);
* machine integers are `Nat` with explicit `% 2 ^ w` where the Rust code
  can wrap (`usize` arithmetic wraps mod `2 ^ 64` with overflow checks
  off, the release configuration);
* fallible operations return `Except`; a Rust `panic!` / `unwrap()` on
  `None` is an explicit `panicked` constructor;
* `tokio::time::Instant`s are `Nat` milliseconds; tokio instant
  subtraction saturates at zero, like `Nat` subtraction.
-/

namespace Bili

instance {ε α : Type} [DecidableEq ε] [DecidableEq α] :
    DecidableEq (Except ε α) := fun a b =>
  match a, b with
  | .error e1, .error e2 =>
    if h : e1 = e2 then isTrue (h ▸ rfl)
    else isFalse (fun hc => h (Except.error.inj hc))
  | .error _, .ok _ => isFalse (fun hc => Except.noConfusion hc)
  | .ok _, .error _ => isFalse (fun hc => Except.noConfusion hc)
  | .ok a1, .ok a2 =>
    if h : a1 = a2 then isTrue (h ▸ rfl)
    else isFalse (fun hc => h (Except.ok.inj hc))

/-- One big-endian byte of weight accumulation: the value of a byte list
read most-significant first, each element reduced to its low 8 bits. -/
def valBE (l : List Nat) : Nat :=
  l.foldl (fun acc b => acc * 256 + b % 256) 0

/-- Read `k` big-endian bytes from the front of `bs`; `none` when fewer
than `k` bytes remain (deku `DekuError::Incomplete`). -/
def readBE (k : Nat) (bs : List Nat) : Option (Nat × List Nat) :=
  if k ≤ bs.length then some (valBE (bs.take k), bs.drop k) else none

/-- Write `n` as `k` big-endian bytes (the low `8 * k` bits of `n`). -/
def writeBE : Nat → Nat → List Nat
  | 0, _ => []
  | k + 1, n => writeBE k (n / 256) ++ [n % 256]

theorem valBE_foldl_base (l : List Nat) (acc : Nat) :
    l.foldl (fun a b => a * 256 + b % 256) acc =
      acc * 256 ^ l.length + valBE l := by
  induction l generalizing acc with
  | nil => simp [valBE]
  | cons b t ih =>
    simp only [List.foldl_cons, List.length_cons, valBE]
    rw [ih (acc * 256 + b % 256), ih (0 * 256 + b % 256)]
    ring

theorem valBE_cons (b : Nat) (l : List Nat) :
    valBE (b :: l) = (b % 256) * 256 ^ l.length + valBE l := by
  simpa [valBE] using valBE_foldl_base l (b % 256)

theorem valBE_append_singleton (l : List Nat) (b : Nat) :
    valBE (l ++ [b]) = valBE l * 256 + b % 256 := by
  simp [valBE, List.foldl_append]

theorem valBE_lt (l : List Nat) : valBE l < 256 ^ l.length := by
  induction l with
  | nil => simp [valBE]
  | cons b t ih =>
    rw [valBE_cons]
    have hb : b % 256 ≤ 255 := Nat.le_of_lt_succ (Nat.mod_lt _ (by norm_num))
    calc (b % 256) * 256 ^ t.length + valBE t
        ≤ 255 * 256 ^ t.length + valBE t := by
          exact Nat.add_le_add_right (Nat.mul_le_mul_right _ hb) _
      _ < 255 * 256 ^ t.length + 256 ^ t.length := Nat.add_lt_add_left ih _
      _ = 256 ^ (t.length + 1) := by ring
      _ = 256 ^ (b :: t).length := by simp

theorem writeBE_length (k n : Nat) : (writeBE k n).length = k := by
  induction k generalizing n with
  | zero => rfl
  | succ k ih => simp [writeBE, ih]

theorem writeBE_mem_lt (k n : Nat) : ∀ b ∈ writeBE k n, b < 256 := by
  induction k generalizing n with
  | zero => intro b hb; simp [writeBE] at hb
  | succ k ih =>
    intro b hb
    simp only [writeBE, List.mem_append, List.mem_singleton] at hb
    rcases hb with hb | hb
    · exact ih _ b hb
    · subst hb; exact Nat.mod_lt _ (by norm_num)

theorem valBE_writeBE (k n : Nat) : valBE (writeBE k n) = n % 256 ^ k := by
  induction k generalizing n with
  | zero => simp [writeBE, valBE, Nat.mod_one]
  | succ k ih =>
    rw [writeBE, valBE_append_singleton, ih,
      Nat.mod_mod_of_dvd n (dvd_refl 256)]
    have hp : (256 : Nat) ^ (k + 1) = 256 * 256 ^ k := by ring
    rw [hp, Nat.mod_mul]
    ring

theorem writeBE_valBE (l : List Nat) (hl : ∀ b ∈ l, b < 256) :
    writeBE l.length (valBE l) = l := by
  induction l using List.reverseRecOn with
  | nil => simp [writeBE, valBE]
  | append_singleton t b ih =>
    have hb : b < 256 := hl b (by simp)
    have ht : ∀ x ∈ t, x < 256 := fun x hx => hl x (by simp [hx])
    simp only [List.length_append, List.length_singleton, valBE_append_singleton]
    rw [writeBE]
    have hb2 : b % 256 = b := Nat.mod_eq_of_lt hb
    have h1 : (valBE t * 256 + b % 256) / 256 = valBE t := by omega
    have h2 : (valBE t * 256 + b % 256) % 256 = b := by omega
    rw [h1, h2, ih ht]

theorem readBE_eq_some (k : Nat) (bs : List Nat) (h : k ≤ bs.length) :
    readBE k bs = some (valBE (bs.take k), bs.drop k) := by
  simp [readBE, h]

theorem readBE_eq_none (k : Nat) (bs : List Nat) (h : bs.length < k) :
    readBE k bs = none := by
  simp [readBE]; omega

theorem readBE_append (k : Nat) (bs t : List Nat) (v : Nat) (r : List Nat)
    (h : readBE k bs = some (v, r)) :
    readBE k (bs ++ t) = some (v, r ++ t) := by
  by_cases hk : k ≤ bs.length
  · rw [readBE_eq_some k bs hk] at h
    have hv : v = valBE (bs.take k) := by cases h; rfl
    have hr : r = bs.drop k := by cases h; rfl
    rw [readBE_eq_some k (bs ++ t) (by simp; omega)]
    rw [List.take_append_of_le_length hk, List.drop_append_of_le_length hk, hv, hr]
  · rw [readBE_eq_none k bs (by omega)] at h
    cases h

/-- Errors of the deku-derived reader (`deku::DekuError`), reduced to the
cases this codec can produce. -/
inductive DekuError
  | incomplete
  | unknownVariant (id : Nat)
  deriving DecidableEq, Repr

/-- `ProtoVer` from `src/live/ws.rs`: `u16` discriminants 0..3. -/
inductive ProtoVer
  | Json
  | Int32BE
  | ZlibBuf
  | Unknown
  deriving DecidableEq, Repr

/-- Wire discriminant of a `ProtoVer` (the `#[deku(id = ...)]` values). -/
def ProtoVer.toId : ProtoVer → Nat
  | .Json => 0
  | .Int32BE => 1
  | .ZlibBuf => 2
  | .Unknown => 3

/-- Match a `u16` against the `ProtoVer` discriminants; any other value
is deku's could-not-match-enum-variant error. -/
def ProtoVer.fromId (v : Nat) : Option ProtoVer :=
  if v = 0 then some .Json
  else if v = 1 then some .Int32BE
  else if v = 2 then some .ZlibBuf
  else if v = 3 then some .Unknown
  else none

/-- `Operation` from `src/live/ws.rs`: `u32` discriminants 2,3,5,7,8. -/
inductive Operation
  | HeartBeat
  | HeartBeatReply
  | Notification
  | Entering
  | EnteringReply
  deriving DecidableEq, Repr

/-- Wire discriminant of an `Operation`. -/
def Operation.toId : Operation → Nat
  | .HeartBeat => 2
  | .HeartBeatReply => 3
  | .Notification => 5
  | .Entering => 7
  | .EnteringReply => 8

/-- Match a `u32` against the `Operation` discriminants. -/
def Operation.fromId (v : Nat) : Option Operation :=
  if v = 2 then some .HeartBeat
  else if v = 3 then some .HeartBeatReply
  else if v = 5 then some .Notification
  else if v = 7 then some .Entering
  else if v = 8 then some .EnteringReply
  else none

/-- `usize` arithmetic is modulo `2 ^ 64` (64-bit target). -/
def usizeMod : Nat := 2 ^ 64

/-- The `usize` subtraction `a - b` as compiled without overflow checks:
two's-complement wrap-around modulo `2 ^ 64`. -/
def usizeSub (a b : Nat) : Nat := (a + (usizeMod - b % usizeMod)) % usizeMod

/-- `isize::MAX` on a 64-bit target: `Vec::<u8>::with_capacity` panics
with a capacity overflow when asked for more. -/
def isizeMax : Nat := 2 ^ 63 - 1

/-- Outcome of Rust code that may panic. -/
inductive PanicOr (α : Type)
  | value (a : α)
  | panicked
  deriving DecidableEq, Repr

/-- Map under `PanicOr`; a panic propagates. -/
def PanicOr.map {α β : Type} (f : α → β) : PanicOr α → PanicOr β
  | .value a => .value (f a)
  | .panicked => .panicked

/-- `WsPacket` from `src/live/ws.rs`: big-endian layout
`pkt_len:32, hdr_len:16, proto_ver:16, operation:32, seq_id:32, data`. -/
structure WsPacket where
  pkt_len : Nat
  hdr_len : Nat
  proto_ver : ProtoVer
  operation : Operation
  seq_id : Nat
  data : List Nat
  deriving DecidableEq, Repr

namespace WsPacket

/-- The deku-derived `WsPacket::from_bytes` (whole-byte offsets: every
field of this layout is byte-aligned, so the bit offset deku returns is
always 0 and the leftover is a byte suffix). Fields are read in
declaration order; the `data` count is the `usize` expression
`pkt_len - hdr_len` of the `#[deku(count = ...)]` attribute, which for
`pkt_len < hdr_len` wraps modulo `2 ^ 64` (release profile; a debug
build panics at the subtraction itself). Before reading any data byte,
deku pre-allocates `Vec::with_capacity(count)`
(`read_vec_with_predicate`), which panics with a capacity overflow when
`count > isize::MAX` — exactly the wrapped case, since an unwrapped
count is below `2 ^ 32`. Both profiles therefore panic on
`pkt_len < hdr_len`, modelled as `.panicked`; only afterwards can the
element reads fail with `Incomplete`. -/
def from_bytes (bytes : List Nat) :
    PanicOr (Except DekuError (WsPacket × List Nat)) :=
  match readBE 4 bytes with
  | none => .value (.error .incomplete)
  | some (pkt_len, r1) =>
    match readBE 2 r1 with
    | none => .value (.error .incomplete)
    | some (hdr_len, r2) =>
      match readBE 2 r2 with
      | none => .value (.error .incomplete)
      | some (pv, r3) =>
        match ProtoVer.fromId pv with
        | none => .value (.error (.unknownVariant pv))
        | some proto_ver =>
          match readBE 4 r3 with
          | none => .value (.error .incomplete)
          | some (opv, r4) =>
            match Operation.fromId opv with
            | none => .value (.error (.unknownVariant opv))
            | some operation =>
              match readBE 4 r4 with
              | none => .value (.error .incomplete)
              | some (seq_id, r5) =>
                let count := usizeSub pkt_len hdr_len
                if isizeMax < count then .panicked
                else if count ≤ r5.length then
                  .value (.ok
                    (⟨pkt_len, hdr_len, proto_ver, operation, seq_id,
                      r5.take count⟩, r5.drop count))
                else .value (.error .incomplete)

/-- The deku-derived `WsPacket::to_bytes`: each field is written with the
value currently stored in the struct (the `#[deku(update = ...)]`
expression on `pkt_len` runs only when `DekuUpdate::update` is called,
which this crate never does). Writing never fails for this layout. -/
def to_bytes (p : WsPacket) : List Nat :=
  writeBE 4 p.pkt_len ++ writeBE 2 p.hdr_len ++ writeBE 2 p.proto_ver.toId ++
    writeBE 4 p.operation.toId ++ writeBE 4 p.seq_id ++ p.data

/-- `WsPacket::new_heartbeat` — note the stored `pkt_len` is `0`. -/
def new_heartbeat : WsPacket :=
  { pkt_len := 0
    hdr_len := 16
    proto_ver := .Json
    operation := .HeartBeat
    seq_id := 1
    data := [] }

/-- A serde error, kept abstract. -/
inductive SerdeError
  | failed
  deriving DecidableEq, Repr

/-- `WsPacket::new_json`, parameterised by the `serde_json::to_vec`
serializer for the body type. -/
def new_json {T : Type} (to_vec : T → Except SerdeError (List Nat))
    (body : T) (operation : Operation) : Except SerdeError WsPacket :=
  match to_vec body with
  | .error e => .error e
  | .ok payload =>
    .ok { pkt_len := payload.length + 16
          hdr_len := 16
          proto_ver := .Json
          operation
          seq_id := 1
          data := payload }

/-- `i32::from_be_bytes` over a 4-byte list: big-endian value,
reinterpreted as a signed 32-bit integer. -/
def i32FromBEBytes (l : List Nat) : Int :=
  let n := valBE l
  if n < 2 ^ 31 then (n : Int) else (n : Int) - 2 ^ 32

/-- `WsPacket::popularity`: `Some` exactly on a `HeartBeatReply` whose
body converts to a `[u8; 4]` (i.e. has length 4). -/
def popularity (p : WsPacket) : Option Int :=
  if p.operation = Operation.HeartBeatReply then
    if p.data.length = 4 then some (i32FromBEBytes p.data) else none
  else none

/-- `WsPacket::decode_body`, parameterised by the
`serde_json::from_slice` deserializer: the JSON branch parses the body,
any other `proto_ver` panics. -/
def decode_body {T : Type} (from_slice : List Nat → Except SerdeError T)
    (p : WsPacket) : PanicOr (Except SerdeError T) :=
  if p.proto_ver = ProtoVer.Json then .value (from_slice p.data)
  else .panicked

/-- Wire position of `pkt_len`: bytes 0-3, big-endian. -/
def pktLenField (bytes : List Nat) : Nat := valBE (bytes.take 4)

/-- Wire position of `hdr_len`: bytes 4-5. -/
def hdrLenField (bytes : List Nat) : Nat := valBE ((bytes.drop 4).take 2)

/-- Wire position of the `proto_ver` discriminant: bytes 6-7. -/
def protoField (bytes : List Nat) : Nat := valBE ((bytes.drop 6).take 2)

/-- Wire position of the `operation` discriminant: bytes 8-11. -/
def opField (bytes : List Nat) : Nat := valBE ((bytes.drop 8).take 4)

/-- Wire position of `seq_id`: bytes 12-15. -/
def seqField (bytes : List Nat) : Nat := valBE ((bytes.drop 12).take 4)

/-- The deku `count` expression `pkt_len - hdr_len` for a wire input. -/
def countField (bytes : List Nat) : Nat :=
  usizeSub (pktLenField bytes) (hdrLenField bytes)

/-- Closed-form characterization of `from_bytes`: the staged reads,
error precedence and panic point of the deku derive, expressed over the
wire fields. -/
theorem from_bytes_char (bytes : List Nat) :
    from_bytes bytes =
      if 8 ≤ bytes.length then
        match ProtoVer.fromId (protoField bytes) with
        | none => .value (.error (.unknownVariant (protoField bytes)))
        | some pv =>
          if 12 ≤ bytes.length then
            match Operation.fromId (opField bytes) with
            | none => .value (.error (.unknownVariant (opField bytes)))
            | some op =>
              if 16 ≤ bytes.length then
                if isizeMax < countField bytes then .panicked
                else if countField bytes ≤ bytes.length - 16 then
                  .value (.ok
                    (⟨pktLenField bytes, hdrLenField bytes, pv, op,
                      seqField bytes,
                      (bytes.drop 16).take (countField bytes)⟩,
                     (bytes.drop 16).drop (countField bytes)))
                else .value (.error .incomplete)
              else .value (.error .incomplete)
          else .value (.error .incomplete)
      else .value (.error .incomplete) := by
  by_cases h4 : 4 ≤ bytes.length
  · by_cases h6 : 6 ≤ bytes.length
    · by_cases h8 : 8 ≤ bytes.length
      · simp only [from_bytes, readBE_eq_some 4 bytes h4,
          readBE_eq_some 2 (bytes.drop 4) (by simp; omega),
          List.drop_drop,
          readBE_eq_some 2 (bytes.drop 6) (by simp; omega), if_pos h8]
        cases hpv : ProtoVer.fromId (protoField bytes) with
        | none =>
          have hpv2 : ProtoVer.fromId
              (valBE ((bytes.drop 6).take 2)) = none := hpv
          simp only [hpv2, protoField]
        | some pv =>
          by_cases h12 : 12 ≤ bytes.length
          · have hpv2 : ProtoVer.fromId
                (valBE ((bytes.drop 6).take 2)) = some pv := hpv
            simp only [hpv2,
              readBE_eq_some 4 (bytes.drop 8) (by simp; omega),
              List.drop_drop, if_pos h12]
            cases hop : Operation.fromId (opField bytes) with
            | none =>
              have hop2 : Operation.fromId
                  (valBE ((bytes.drop 8).take 4)) = none := hop
              simp only [hop2, opField]
            | some op =>
              have hop2 : Operation.fromId
                  (valBE ((bytes.drop 8).take 4)) = some op := hop
              by_cases h16 : 16 ≤ bytes.length
              · simp only [hop2,
                  readBE_eq_some 4 (bytes.drop 12) (by simp; omega),
                  List.drop_drop, if_pos h16]
                have hlen : (bytes.drop 16).length = bytes.length - 16 := by
                  simp
                simp only [pktLenField, hdrLenField, seqField, countField,
                  usizeSub, hlen]
              · simp only [hop2,
                  readBE_eq_none 4 (bytes.drop 12) (by simp; omega),
                  if_neg h16]
          · have hpv2 : ProtoVer.fromId
                (valBE ((bytes.drop 6).take 2)) = some pv := hpv
            simp only [hpv2,
              readBE_eq_none 4 (bytes.drop 8) (by simp; omega), if_neg h12]
      · simp only [from_bytes, readBE_eq_some 4 bytes h4,
          readBE_eq_some 2 (bytes.drop 4) (by simp; omega), List.drop_drop,
          readBE_eq_none 2 (bytes.drop 6) (by simp; omega), if_neg h8]
    · simp only [from_bytes, readBE_eq_some 4 bytes h4,
        readBE_eq_none 2 (bytes.drop 4) (by simp; omega),
        if_neg (show ¬8 ≤ bytes.length by omega)]
  · simp only [from_bytes, readBE_eq_none 4 bytes (by omega),
      if_neg (show ¬8 ≤ bytes.length by omega)]

theorem proto_toId_fromId {v : Nat} {pv : ProtoVer}
    (h : ProtoVer.fromId v = some pv) : pv.toId = v := by
  unfold ProtoVer.fromId at h
  split_ifs at h with h0 h1 h2 h3 <;>
    first
      | (cases h; simp [ProtoVer.toId]; omega)
      | cases h

theorem op_toId_fromId {v : Nat} {op : Operation}
    (h : Operation.fromId v = some op) : op.toId = v := by
  unfold Operation.fromId at h
  split_ifs at h with h0 h1 h2 h3 h4 <;>
    first
      | (cases h; simp [Operation.toId]; omega)
      | cases h

theorem from_bytes_ok_elim {bytes : List Nat} {p : WsPacket}
    {rem : List Nat} (h : from_bytes bytes = .value (.ok (p, rem))) :
    16 ≤ bytes.length ∧
    countField bytes ≤ isizeMax ∧
    countField bytes ≤ bytes.length - 16 ∧
    ProtoVer.fromId (protoField bytes) = some p.proto_ver ∧
    Operation.fromId (opField bytes) = some p.operation ∧
    p.pkt_len = pktLenField bytes ∧
    p.hdr_len = hdrLenField bytes ∧
    p.seq_id = seqField bytes ∧
    p.data = (bytes.drop 16).take (countField bytes) ∧
    rem = (bytes.drop 16).drop (countField bytes) := by
  rw [from_bytes_char] at h
  split at h
  · split at h
    next hpv => cases h
    next pv hpv =>
      split at h
      · split at h
        next hop => cases h
        next op hop =>
          split at h
          next h16 =>
            split at h
            next hmax => cases h
            next hmax =>
              split at h
              next hc =>
                injection h with h1
                injection h1 with h2
                injection h2 with hp hr
                subst hp; subst hr
                exact ⟨h16, by omega, hc, hpv, hop, rfl, rfl, rfl, rfl,
                  rfl⟩
              next hc => cases h
          next h16 => cases h
      · cases h
  · cases h

theorem from_bytes_ok_intro (bytes : List Nat) (pv : ProtoVer)
    (op : Operation) (h16 : 16 ≤ bytes.length)
    (hpv : ProtoVer.fromId (protoField bytes) = some pv)
    (hop : Operation.fromId (opField bytes) = some op)
    (hmax : countField bytes ≤ isizeMax)
    (hc : countField bytes ≤ bytes.length - 16) :
    from_bytes bytes = .value (.ok
      (⟨pktLenField bytes, hdrLenField bytes, pv, op, seqField bytes,
        (bytes.drop 16).take (countField bytes)⟩,
       (bytes.drop 16).drop (countField bytes))) := by
  rw [from_bytes_char, if_pos (show 8 ≤ bytes.length by omega)]
  simp only [hpv]
  rw [if_pos (show 12 ≤ bytes.length by omega)]
  simp only [hop]
  rw [if_pos h16, if_neg (show ¬isizeMax < countField bytes by omega),
    if_pos hc]

theorem from_bytes_append {b : List Nat} {p : WsPacket} {r : List Nat}
    (t : List Nat) (h : from_bytes b = .value (.ok (p, r))) :
    from_bytes (b ++ t) = .value (.ok (p, r ++ t)) := by
  obtain ⟨pl, hl, pv, op, sq, dt⟩ := p
  obtain ⟨h16, hmax, hc, hpv, hop, hpk, hhd, hsq, hdt, hrm⟩ :=
    from_bytes_ok_elim h
  have hd16 : (b.drop 16).length = b.length - 16 := by simp
  have e4 : (b ++ t).take 4 = b.take 4 :=
    List.take_append_of_le_length (by omega)
  have ed : ∀ k : Nat, k ≤ 16 → (b ++ t).drop k = b.drop k ++ t :=
    fun k hk => List.drop_append_of_le_length (by omega)
  have edt : ∀ k j : Nat, k + j ≤ 16 →
      ((b ++ t).drop k).take j = (b.drop k).take j := by
    intro k j hkj
    rw [ed k (by omega)]
    exact List.take_append_of_le_length (by simp; omega)
  have epk : pktLenField (b ++ t) = pktLenField b := by
    rw [pktLenField, pktLenField, e4]
  have ehd : hdrLenField (b ++ t) = hdrLenField b := by
    rw [hdrLenField, hdrLenField, edt 4 2 (by omega)]
  have epv : protoField (b ++ t) = protoField b := by
    rw [protoField, protoField, edt 6 2 (by omega)]
  have eop : opField (b ++ t) = opField b := by
    rw [opField, opField, edt 8 4 (by omega)]
  have esq : seqField (b ++ t) = seqField b := by
    rw [seqField, seqField, edt 12 4 (by omega)]
  have ect : countField (b ++ t) = countField b := by
    rw [countField, countField, epk, ehd]
  have hres := from_bytes_ok_intro (b ++ t) pv op
    (by simp; omega) (by rw [epv]; exact hpv) (by rw [eop]; exact hop)
    (by rw [ect]; exact hmax) (by rw [ect]; simp; omega)
  rw [hres, ect, epk, ehd, esq, ed 16 (by omega)]
  rw [List.take_append_of_le_length (by omega),
    List.drop_append_of_le_length (by omega)]
  rw [← hpk, ← hhd, ← hsq, ← hdt, ← hrm]

theorem from_bytes_consumes {bytes : List Nat} {p : WsPacket}
    {rem : List Nat} (h : from_bytes bytes = .value (.ok (p, rem))) :
    rem.length < bytes.length ∧ 16 ≤ bytes.length := by
  obtain ⟨h16, _, _, _, _, _, _, _, _, hrm⟩ := from_bytes_ok_elim h
  subst hrm
  simp only [List.length_drop]
  omega

theorem from_bytes_panic_elim {bytes : List Nat}
    (h : from_bytes bytes = .panicked) :
    16 ≤ bytes.length ∧ isizeMax < countField bytes := by
  rw [from_bytes_char] at h
  split at h
  · split at h
    next hpv => cases h
    next pv hpv =>
      split at h
      · split at h
        next hop => cases h
        next op hop =>
          split at h
          next h16 =>
            split at h
            next hmax => exact ⟨h16, hmax⟩
            next hmax =>
              split at h
              next hc => cases h
              next hc => cases h
          next h16 => cases h
      · cases h
  · cases h

theorem from_bytes_panic_intro (bytes : List Nat) (pv : ProtoVer)
    (op : Operation) (h16 : 16 ≤ bytes.length)
    (hpv : ProtoVer.fromId (protoField bytes) = some pv)
    (hop : Operation.fromId (opField bytes) = some op)
    (hmax : isizeMax < countField bytes) :
    from_bytes bytes = .panicked := by
  rw [from_bytes_char, if_pos (show 8 ≤ bytes.length by omega)]
  simp only [hpv]
  rw [if_pos (show 12 ≤ bytes.length by omega)]
  simp only [hop]
  rw [if_pos h16, if_pos hmax]

theorem pktLenField_lt (bytes : List Nat) : pktLenField bytes < 2 ^ 32 := by
  have hv := valBE_lt (bytes.take 4)
  have hl : (bytes.take 4).length ≤ 4 := by simp [List.length_take]
  calc pktLenField bytes < 256 ^ (bytes.take 4).length := hv
    _ ≤ 256 ^ 4 := Nat.pow_le_pow_right (by norm_num) hl
    _ = 2 ^ 32 := by norm_num

theorem hdrLenField_lt (bytes : List Nat) : hdrLenField bytes < 2 ^ 16 := by
  have hv := valBE_lt ((bytes.drop 4).take 2)
  have hl : ((bytes.drop 4).take 2).length ≤ 2 := by simp [List.length_take]
  calc hdrLenField bytes < 256 ^ ((bytes.drop 4).take 2).length := hv
    _ ≤ 256 ^ 2 := Nat.pow_le_pow_right (by norm_num) hl
    _ = 2 ^ 16 := by norm_num

/-- For `pkt_len ≥ hdr_len` the deku count is the plain difference;
for `pkt_len < hdr_len` it wraps past `isize::MAX`. -/
theorem countField_cases (bytes : List Nat) :
    (hdrLenField bytes ≤ pktLenField bytes →
      countField bytes = pktLenField bytes - hdrLenField bytes) ∧
    (pktLenField bytes < hdrLenField bytes →
      isizeMax < countField bytes) := by
  have hpk := pktLenField_lt bytes
  have hhd := hdrLenField_lt bytes
  have hM : usizeMod = 18446744073709551616 := by norm_num [usizeMod]
  have hI : isizeMax = 9223372036854775807 := by norm_num [isizeMax]
  have h32 : (2 : Nat) ^ 32 = 4294967296 := by norm_num
  have h16 : (2 : Nat) ^ 16 = 65536 := by norm_num
  rw [h32] at hpk
  rw [h16] at hhd
  unfold countField usizeSub
  rw [hM, hI]
  constructor
  · intro hle
    omega
  · intro hlt
    omega

theorem takeChain (l : List Nat) :
    l.take 4 ++ ((l.drop 4).take 2 ++ ((l.drop 6).take 2 ++
      ((l.drop 8).take 4 ++ ((l.drop 12).take 4 ++ l.drop 16)))) = l := by
  have e16 : (l.drop 12).take 4 ++ l.drop 16 = l.drop 12 := by
    have h := List.take_append_drop 4 (l.drop 12)
    rw [List.drop_drop] at h
    norm_num at h
    exact h
  have e12 : (l.drop 8).take 4 ++ l.drop 12 = l.drop 8 := by
    have h := List.take_append_drop 4 (l.drop 8)
    rw [List.drop_drop] at h
    norm_num at h
    exact h
  have e8 : (l.drop 6).take 2 ++ l.drop 8 = l.drop 6 := by
    have h := List.take_append_drop 2 (l.drop 6)
    rw [List.drop_drop] at h
    norm_num at h
    exact h
  have e6 : (l.drop 4).take 2 ++ l.drop 6 = l.drop 4 := by
    have h := List.take_append_drop 2 (l.drop 4)
    rw [List.drop_drop] at h
    norm_num at h
    exact h
  rw [e16, e12, e8, e6, List.take_append_drop]

theorem to_bytes_from_bytes {bytes : List Nat} {p : WsPacket}
    (hb : ∀ x ∈ bytes, x < 256)
    (h : from_bytes bytes = .value (.ok (p, []))) : p.to_bytes = bytes := by
  obtain ⟨h16, hmax, hc, hpv, hop, hpk, hhd, hsq, hdt, hrm⟩ :=
    from_bytes_ok_elim h
  have hd16 : (bytes.drop 16).length = bytes.length - 16 := by simp
  have hcount : countField bytes = bytes.length - 16 := by
    have := congrArg List.length hrm.symm
    simp only [List.length_drop, List.length_nil] at this
    omega
  have hdata : p.data = bytes.drop 16 := by
    rw [hdt, hcount, ← hd16, List.take_length]
  have wTake : ∀ k j : Nat, k + j ≤ 16 →
      writeBE j (valBE ((bytes.drop k).take j)) = (bytes.drop k).take j := by
    intro k j hkj
    have hlen : ((bytes.drop k).take j).length = j := by simp; omega
    have hmem : ∀ x ∈ (bytes.drop k).take j, x < 256 := fun x hx =>
      hb x (List.drop_subset k bytes (List.take_subset j (bytes.drop k) hx))
    calc writeBE j (valBE ((bytes.drop k).take j))
        = writeBE ((bytes.drop k).take j).length
            (valBE ((bytes.drop k).take j)) := by rw [hlen]
      _ = (bytes.drop k).take j := writeBE_valBE _ hmem
  have w0 : writeBE 4 p.pkt_len = bytes.take 4 := by
    have h0 : bytes.take 4 = (bytes.drop 0).take 4 := by simp
    rw [hpk, pktLenField, h0]
    exact h0 ▸ wTake 0 4 (by omega)
  have w4 : writeBE 2 p.hdr_len = (bytes.drop 4).take 2 := by
    rw [hhd, hdrLenField]; exact wTake 4 2 (by omega)
  have w6 : writeBE 2 p.proto_ver.toId = (bytes.drop 6).take 2 := by
    rw [proto_toId_fromId hpv, protoField]; exact wTake 6 2 (by omega)
  have w8 : writeBE 4 p.operation.toId = (bytes.drop 8).take 4 := by
    rw [op_toId_fromId hop, opField]; exact wTake 8 4 (by omega)
  have w12 : writeBE 4 p.seq_id = (bytes.drop 12).take 4 := by
    rw [hsq, seqField]; exact wTake 12 4 (by omega)
  rw [to_bytes, w0, w4, w6, w8, w12, hdata]
  simp only [List.append_assoc]
  exact takeChain bytes

end WsPacket

/-- Error sum for the reader task (`crate::error::Error`, restricted to
the variants `parse_pkt` can produce). -/
inductive WsError
  | wsDecode (e : DekuError)
  | zlib
  deriving DecidableEq, Repr

/-- The inner-packet loop of `DanmakuStreamInner::parse_pkt` run on a
decompressed zlib buffer: decode one packet, send it on the broadcast
channel, stop when the remainder is empty, otherwise continue on the
remainder. Returns the packets sent (in send order) and the loop's
final status: a decode error aborts the whole loop, a decoder panic
kills the whole reader task, and in both cases the packets already
sent stay sent. -/
def unwrapLoop (bytes : List Nat) :
    List WsPacket × PanicOr (Except DekuError Unit) :=
  match h : WsPacket.from_bytes bytes with
  | .panicked => ([], .panicked)
  | .value (.error e) => ([], .value (.error e))
  | .value (.ok (pkt, remaining)) =>
    if remaining.isEmpty then ([pkt], .value (.ok ()))
    else
      let rest := unwrapLoop remaining
      (pkt :: rest.1, rest.2)
termination_by bytes.length
decreasing_by exact (WsPacket.from_bytes_consumes h).1

/-- `DanmakuStreamInner::parse_pkt_inner` on one inbound binary message,
with `flate2`'s `ZlibDecoder` abstracted as the `decompress` argument.
Trailing bytes after the outer packet only produce a warning. The result
lists the packets forwarded to the broadcast channel and the final
status (a decoder panic propagates out of the reader task). -/
def parse_pkt_inner (decompress : List Nat → Except Unit (List Nat))
    (msg : List Nat) : List WsPacket × PanicOr (Except WsError Unit) :=
  match WsPacket.from_bytes msg with
  | .panicked => ([], .panicked)
  | .value (.error e) => ([], .value (.error (.wsDecode e)))
  | .value (.ok (pkt, _rest)) =>
    if pkt.proto_ver = ProtoVer.ZlibBuf then
      match decompress pkt.data with
      | .error _ => ([], .value (.error .zlib))
      | .ok buf =>
        let r := unwrapLoop buf
        (r.1, r.2.map (Except.mapError WsError.wsDecode))
    else ([pkt], .value (.ok ()))

/-- `b` is the wire form of exactly one well-formed packet `p`: decoding
consumes all of `b`. -/
def encodesPacket (b : List Nat) (p : WsPacket) : Prop :=
  WsPacket.from_bytes b = .value (.ok (p, []))

theorem encodesPacket_ne_nil {b : List Nat} {p : WsPacket}
    (h : encodesPacket b p) : b ≠ [] := by
  have h16 := (WsPacket.from_bytes_consumes h).2
  intro hb
  subst hb
  simp at h16

theorem unwrapLoop_eq_panic (bytes : List Nat)
    (h : WsPacket.from_bytes bytes = .panicked) :
    unwrapLoop bytes = ([], .panicked) := by
  conv_lhs => unfold unwrapLoop
  split
  next he => rfl
  next e2 he => rw [h] at he; cases he
  next p r he => rw [h] at he; cases he

theorem unwrapLoop_eq_err (bytes : List Nat) (e : DekuError)
    (h : WsPacket.from_bytes bytes = .value (.error e)) :
    unwrapLoop bytes = ([], .value (.error e)) := by
  conv_lhs => unfold unwrapLoop
  split
  next he => rw [h] at he; cases he
  next e2 he =>
    rw [h] at he
    injection he with h1
    injection h1 with h2
    rw [h2]
  next p r he => rw [h] at he; cases he

theorem unwrapLoop_eq_ok (bytes : List Nat) (pkt : WsPacket)
    (remaining : List Nat)
    (h : WsPacket.from_bytes bytes = .value (.ok (pkt, remaining))) :
    unwrapLoop bytes =
      if remaining.isEmpty then ([pkt], .value (.ok ()))
      else (pkt :: (unwrapLoop remaining).1, (unwrapLoop remaining).2) := by
  conv_lhs => unfold unwrapLoop
  split
  next he => rw [h] at he; cases he
  next e2 he => rw [h] at he; cases he
  next p r he =>
    rw [h] at he
    injection he with h1
    injection h1 with h2
    injection h2 with hp hr
    subst hp; subst hr
    rfl

theorem unwrapLoop_join_ok {bufs : List (List Nat)} {pkts : List WsPacket}
    (hfa : List.Forall₂ encodesPacket bufs pkts) (hne : bufs ≠ []) :
    unwrapLoop bufs.flatten = (pkts, .value (.ok ())) := by
  induction hfa with
  | nil => exact absurd rfl hne
  | @cons b p l ps hbp hfa ih =>
    rw [List.flatten_cons]
    have hdec : WsPacket.from_bytes (b ++ l.flatten) =
        .value (.ok (p, l.flatten)) := by
      simpa using WsPacket.from_bytes_append l.flatten hbp
    rw [unwrapLoop_eq_ok _ _ _ hdec]
    cases hfa with
    | nil => simp
    | @cons b2 p2 l2 ps2 hbp2 hfa2 =>
      have hb2 : b2 ≠ [] := encodesPacket_ne_nil hbp2
      have hjoin : (b2 :: l2).flatten ≠ [] := by
        simp only [List.flatten_cons]
        intro hcontra
        exact hb2 (List.append_eq_nil.mp hcontra).1
      rw [if_neg (by simpa [List.isEmpty_iff] using hjoin)]
      rw [ih (by simp)]

theorem unwrapLoop_join_err {bufs : List (List Nat)} {pkts : List WsPacket}
    (bad : List Nat) (e : DekuError)
    (hfa : List.Forall₂ encodesPacket bufs pkts)
    (hbadne : bad ≠ [])
    (hbad : WsPacket.from_bytes bad = .value (.error e)) :
    unwrapLoop (bufs.flatten ++ bad) = (pkts, .value (.error e)) := by
  induction hfa with
  | nil => simpa using unwrapLoop_eq_err bad e hbad
  | @cons b p l ps hbp hfa ih =>
    rw [List.flatten_cons, List.append_assoc]
    have hdec : WsPacket.from_bytes (b ++ (l.flatten ++ bad)) =
        .value (.ok (p, l.flatten ++ bad)) := by
      simpa using WsPacket.from_bytes_append (l.flatten ++ bad) hbp
    rw [unwrapLoop_eq_ok _ _ _ hdec]
    have hne : l.flatten ++ bad ≠ [] := by
      intro hcontra
      exact hbadne (List.append_eq_nil.mp hcontra).2
    rw [if_neg (by simpa [List.isEmpty_iff] using hne)]
    rw [ih]

theorem unwrapLoop_join_panic {bufs : List (List Nat)}
    {pkts : List WsPacket} (bad : List Nat)
    (hfa : List.Forall₂ encodesPacket bufs pkts)
    (hbad : WsPacket.from_bytes bad = .panicked) :
    unwrapLoop (bufs.flatten ++ bad) = (pkts, .panicked) := by
  have hbadne : bad ≠ [] := by
    have h16 := (WsPacket.from_bytes_panic_elim hbad).1
    intro hb
    subst hb
    simp at h16
  induction hfa with
  | nil => simpa using unwrapLoop_eq_panic bad hbad
  | @cons b p l ps hbp hfa ih =>
    rw [List.flatten_cons, List.append_assoc]
    have hdec : WsPacket.from_bytes (b ++ (l.flatten ++ bad)) =
        .value (.ok (p, l.flatten ++ bad)) := by
      simpa using WsPacket.from_bytes_append (l.flatten ++ bad) hbp
    rw [unwrapLoop_eq_ok _ _ _ hdec]
    have hne : l.flatten ++ bad ≠ [] := by
      intro hcontra
      exact hbadne (List.append_eq_nil.mp hcontra).2
    rw [if_neg (by simpa [List.isEmpty_iff] using hne)]
    rw [ih]

/-- The supervisor state of `DanmakuStreamInner` that the failure loop
in `DanmakuStream::new` reads and writes: the active host index, the
instant of the last reported failure (milliseconds), and the immutable
`danmaku_info.host_list.len()`. -/
structure SupervisorState where
  srv_index : Nat
  last_failed : Option Nat
  hosts_len : Nat
  deriving DecidableEq, Repr

/-- `DanmakuStreamInner::fail_over`: rotate the host index (the
subsequent reconnect is reported by the `Bool` of `stepFailure`). -/
def fail_over (s : SupervisorState) : SupervisorState :=
  { s with srv_index := (s.srv_index + 1) % s.hosts_len }

/-- One iteration of the `fail_over_task` loop in `DanmakuStream::new`
on a failure report stamped `t`: `last_failed.replace(t)` first, then
fail over only when a previous instant existed and `t` exceeds it by
more than 100 ms (tokio instant subtraction saturates at zero, as `Nat`
subtraction does). The `Bool` records whether a reconnect was
performed. -/
def stepFailure (s : SupervisorState) (t : Nat) : SupervisorState × Bool :=
  let old := s.last_failed
  let s1 := { s with last_failed := some t }
  match old with
  | none => (s1, false)
  | some o => if t - o > 100 then (fail_over s1, true) else (s1, false)

/-- The `fail_over_task` loop over a whole sequence of failure
reports. -/
def runFailures (s : SupervisorState) : List Nat → SupervisorState
  | [] => s
  | t :: ts => runFailures (stepFailure s t).1 ts

/-- `spacedFrom prev ts`: every instant of `ts` exceeds its predecessor
(starting from `prev`) by more than 100 ms. -/
def spacedFrom : Nat → List Nat → Bool
  | _, [] => true
  | prev, t :: ts => decide (prev + 100 < t) && spacedFrom t ts

theorem stepFailure_first (s : SupervisorState) (t : Nat)
    (h : s.last_failed = none) :
    stepFailure s t = ({ s with last_failed := some t }, false) := by
  simp only [stepFailure, h]

theorem stepFailure_rotate (s : SupervisorState) (t o : Nat)
    (h : s.last_failed = some o) (ht : o + 100 < t) :
    stepFailure s t =
      ({ s with srv_index := (s.srv_index + 1) % s.hosts_len,
                last_failed := some t }, true) := by
  simp only [stepFailure, h]
  rw [if_pos (by omega)]
  rfl

theorem stepFailure_debounce (s : SupervisorState) (t o : Nat)
    (h : s.last_failed = some o) (ht : t ≤ o + 100) :
    stepFailure s t = ({ s with last_failed := some t }, false) := by
  simp only [stepFailure, h]
  rw [if_neg (by omega)]

theorem runFailures_spaced (ts : List Nat) : ∀ (s : SupervisorState)
    (o : Nat), s.last_failed = some o → spacedFrom o ts = true →
    0 < s.hosts_len → s.srv_index < s.hosts_len →
    (runFailures s ts).srv_index =
      (s.srv_index + ts.length) % s.hosts_len := by
  induction ts with
  | nil =>
    intro s o h hsp hn hi
    simp [runFailures, Nat.mod_eq_of_lt hi]
  | cons t ts ih =>
    intro s o h hsp hn hi
    simp only [spacedFrom, Bool.and_eq_true, decide_eq_true_eq] at hsp
    obtain ⟨hlt, hsp2⟩ := hsp
    simp only [runFailures]
    rw [stepFailure_rotate s t o h hlt]
    have hres := ih
      { s with srv_index := (s.srv_index + 1) % s.hosts_len,
               last_failed := some t } t rfl hsp2 hn (Nat.mod_lt _ hn)
    simp only [List.length_cons]
    rw [hres]
    show ((s.srv_index + 1) % s.hosts_len + ts.length) % s.hosts_len = _
    rw [Nat.mod_add_mod]
    congr 1
    omega

/-- `ApiResponse` from `src/lib.rs`. -/
structure ApiResponse (T : Type) where
  code : Int
  msg : Option String
  message : Option String
  data : Option T
  deriving DecidableEq, Repr

/-- `ApiResponse::ok` — defined but never called by the lookups. -/
def ApiResponse.isOk {T : Type} (r : ApiResponse T) : Bool := r.code = 0

/-- `ApiResponse::into_data`: `self.data.unwrap()` — panics when `data`
is absent. -/
def ApiResponse.into_data {T : Type} (r : ApiResponse T) : PanicOr T :=
  match r.data with
  | some d => .value d
  | none => .panicked

/-- Outcome of a room/directory lookup as the caller of `open()` sees
it. -/
inductive LookupOutcome (E T : Type)
  | success (d : T)
  | failure (e : E)
  | panicked
  deriving DecidableEq, Repr

/-- The envelope handling shared by `room_init`, `get_danmaku_info` and
`get_play_url_info` in `src/live/mod.rs`: the reqwest GET and JSON
decode are abstracted into the `fetched` argument (their errors
propagate via `?`); a decoded envelope is consumed with
`Ok(response.into_data())`, with no look at `code`. -/
def room_init {E T : Type} (fetched : Except E (ApiResponse T)) :
    LookupOutcome E T :=
  match fetched with
  | .error e => .failure e
  | .ok resp =>
    match resp.into_data with
    | .value d => .success d
    | .panicked => .panicked

/-- C1: the claim states that `WsPacket::new_heartbeat().to_bytes()`
yields the 16 bytes `00 00 00 10 00 10 00 00 00 00 00 02 00 00 00 01`
(wire `pktLen = 16`). The source stores `pkt_len = 0` in the heartbeat
and `to_bytes` serializes the stored value, so the first four wire bytes
are `00 00 00 00`: this theorem evaluates the code at the failing
input. -/
theorem C1_heartbeat_wire_bytes :
    WsPacket.new_heartbeat.to_bytes =
      [0, 0, 0, 0, 0, 16, 0, 0, 0, 0, 0, 2, 0, 0, 0, 1] := by decide

/-- C2: the claim states that `to_bytes` serializes a `pktLen` equal to
`hdrLen + body.length` regardless of the stored `pkt_len`. In the source
the first four serialized bytes are always the stored `pkt_len` (the
deku `update` expression is never run), and on the heartbeat packet the
stored value 0 differs from `hdr_len + data.len() = 16`. -/
theorem C2_encode_writes_stored_pkt_len :
    (∀ p : WsPacket, p.to_bytes.take 4 = writeBE 4 p.pkt_len) ∧
    WsPacket.new_heartbeat.to_bytes.take 4 = [0, 0, 0, 0] ∧
    WsPacket.new_heartbeat.hdr_len + WsPacket.new_heartbeat.data.length
      = 16 := by
  refine ⟨fun p => ?_, by decide, by decide⟩
  rw [WsPacket.to_bytes]
  simp only [List.append_assoc]
  rw [List.take_append_of_le_length (by rw [writeBE_length])]
  exact List.take_of_length_le (by rw [writeBE_length])

/-- C5 counterexample: the claim states that decoding fails whenever the
wire `hdrLen` field is less than 16; but a frame whose `hdrLen` field is
0 decodes successfully when enough bytes are present (the source
performs no `hdrLen` check). -/
theorem C5_counterexample :
    WsPacket.from_bytes
        ([0, 0, 0, 16, 0, 0, 0, 0, 0, 0, 0, 2, 0, 0, 0, 1] ++
          List.replicate 16 0) =
      .value (.ok (⟨16, 0, ProtoVer.Json, Operation.HeartBeat, 1,
            List.replicate 16 0⟩, [])) ∧
    (⟨16, 0, ProtoVer.Json, Operation.HeartBeat, 1,
      List.replicate 16 0⟩ : WsPacket).hdr_len < 16 := by
  constructor
  · decide
  · decide

/-- C5 (amended): when the wire `pktLen` is at least `hdrLen`,
`from_bytes` fails with a decode error exactly on truncation — success
consumes `16 + (pkt_len - hdr_len)` bytes — or on an unknown
`protoVer`/`operation` discriminant (`protoVer = 3` decodes successfully
as `Unknown`); there is no `hdrLen < 16` check; and when `pktLen` is
smaller than `hdrLen` the decoder does not return a decode error at all:
the wrapped deku count makes it panic. -/
theorem C5_amended_decode_failures :
    (∀ (bytes : List Nat) (p : WsPacket) (rem : List Nat),
       WsPacket.from_bytes bytes = .value (.ok (p, rem)) →
       bytes.length = 16 + p.data.length + rem.length ∧
       p.data.length = usizeSub p.pkt_len p.hdr_len) ∧
    (∀ bytes : List Nat, 8 ≤ bytes.length →
       ProtoVer.fromId (WsPacket.protoField bytes) = none →
       WsPacket.from_bytes bytes =
         .value (.error
           (DekuError.unknownVariant (WsPacket.protoField bytes)))) ∧
    (∀ bytes : List Nat, 12 ≤ bytes.length →
       (∃ pv, ProtoVer.fromId (WsPacket.protoField bytes) = some pv) →
       Operation.fromId (WsPacket.opField bytes) = none →
       WsPacket.from_bytes bytes =
         .value (.error
           (DekuError.unknownVariant (WsPacket.opField bytes)))) ∧
    ProtoVer.fromId 3 = some ProtoVer.Unknown ∧
    (∀ bytes : List Nat,
       WsPacket.hdrLenField bytes ≤ WsPacket.pktLenField bytes →
       bytes.length < 16 + WsPacket.countField bytes →
       ∃ e, WsPacket.from_bytes bytes = .value (.error e)) ∧
    (∀ (bytes : List Nat) (pv : ProtoVer) (op : Operation),
       16 ≤ bytes.length →
       ProtoVer.fromId (WsPacket.protoField bytes) = some pv →
       Operation.fromId (WsPacket.opField bytes) = some op →
       WsPacket.pktLenField bytes < WsPacket.hdrLenField bytes →
       WsPacket.from_bytes bytes = .panicked) := by
  refine ⟨?_, ?_, ?_, by decide, ?_, ?_⟩
  · intro bytes p rem h
    obtain ⟨h16, hmax, hc, _, _, hpk, hhd, _, hdt, hrm⟩ :=
      WsPacket.from_bytes_ok_elim h
    have hd : p.data.length = WsPacket.countField bytes := by
      rw [hdt]
      simp only [List.length_take, List.length_drop]
      omega
    have hr : rem.length = bytes.length - 16 - WsPacket.countField bytes := by
      rw [hrm]
      simp only [List.length_drop]
    constructor
    · omega
    · rw [hd, hpk, hhd, WsPacket.countField]
  · intro bytes h8 hpv
    rw [WsPacket.from_bytes_char, if_pos h8, hpv]
  · intro bytes h12 hpv hop
    obtain ⟨pv, hpv⟩ := hpv
    rw [WsPacket.from_bytes_char, if_pos (by omega)]
    simp only [hpv]
    rw [if_pos h12, hop]
  · intro bytes hwf hshort
    cases hfb : WsPacket.from_bytes bytes with
    | panicked =>
      exfalso
      have hmax := (WsPacket.from_bytes_panic_elim hfb).2
      have hcnt := (WsPacket.countField_cases bytes).1 hwf
      have hpk := WsPacket.pktLenField_lt bytes
      have hI : isizeMax = 9223372036854775807 := by norm_num [isizeMax]
      have h32 : (2 : Nat) ^ 32 = 4294967296 := by norm_num
      rw [h32] at hpk
      rw [hI] at hmax
      omega
    | value v =>
      cases v with
      | error e => exact ⟨e, rfl⟩
      | ok pr =>
        exfalso
        obtain ⟨p, rem⟩ := pr
        obtain ⟨h16, hmax, hc, _⟩ := WsPacket.from_bytes_ok_elim hfb
        omega
  · intro bytes pv op h16 hpv hop hlt
    exact WsPacket.from_bytes_panic_intro bytes pv op h16 hpv hop
      ((WsPacket.countField_cases bytes).2 hlt)

/-- C6: whenever `bytes` is a single well-formed packet with
`hdrLen = 16` and no trailing bytes, re-encoding the decoded packet
reproduces the input: `to_bytes (from_bytes bytes) = bytes`. -/
theorem C6_decode_encode_roundtrip (bytes : List Nat) (p : WsPacket)
    (hbytes : ∀ x ∈ bytes, x < 256)
    (hdec : WsPacket.from_bytes bytes = .value (.ok (p, [])))
    (hhdr : p.hdr_len = 16) :
    p.to_bytes = bytes :=
  WsPacket.to_bytes_from_bytes hbytes hdec

/-- C6 witness: the round trip evaluated on a concrete 16-byte
heartbeat-reply frame. -/
theorem C6_roundtrip_witness :
    (⟨16, 16, ProtoVer.Json, Operation.HeartBeatReply, 1, []⟩ :
        WsPacket).to_bytes =
      [0, 0, 0, 16, 0, 16, 0, 0, 0, 0, 0, 3, 0, 0, 0, 1] :=
  C6_decode_encode_roundtrip _ _ (by decide) (by decide) (by decide)

/-- C5 (amended) witness: an 8-byte frame whose protoVer discriminant is
9 is rejected as an unknown variant. -/
theorem C5_amended_witness :
    WsPacket.from_bytes [0, 0, 0, 16, 0, 16, 0, 9] =
      .value (.error (DekuError.unknownVariant
        (WsPacket.protoField [0, 0, 0, 16, 0, 16, 0, 9]))) :=
  C5_amended_decode_failures.2.1 _ (by decide) (by decide)

/-- C3 counterexample: the claim states that when an inner decode fails
partway, the whole container is rejected with an error. On the buffer
holding one well-formed Notification packet followed by an inner frame
whose `pktLen` field (0) is smaller than its `hdrLen` field (16), the
loop's second decode panics (wrapped deku count, capacity overflow), so
the container is not rejected with an error — the loop status is a
panic, not a decode error. -/
theorem C3_counterexample :
    unwrapLoop
        ([0, 0, 0, 16, 0, 16, 0, 0, 0, 0, 0, 5, 0, 0, 0, 1] ++
          [0, 0, 0, 0, 0, 16, 0, 0, 0, 0, 0, 2, 0, 0, 0, 1]) =
      ([⟨16, 16, ProtoVer.Json, Operation.Notification, 1, []⟩],
       PanicOr.panicked) := by
  rw [unwrapLoop_eq_ok _
    ⟨16, 16, ProtoVer.Json, Operation.Notification, 1, []⟩
    [0, 0, 0, 0, 0, 16, 0, 0, 0, 0, 0, 2, 0, 0, 0, 1] (by decide)]
  rw [if_neg (by decide)]
  rw [unwrapLoop_eq_panic _ (by decide)]

/-- C3 (amended): a decoded outer packet with `protoVer = ZlibBuf` whose
body decompresses to the exact concatenation of well-formed inner
packets `p₁…pₙ` (n ≥ 1) makes the reader forward exactly `p₁…pₙ`, in
order and no others; a decompression failure rejects the container with
a zlib error and forwards nothing; an inner decode failing with a decode
error partway rejects the container with that error while the packets
already sent to the broadcast channel stay sent; but an inner frame
whose `pktLen` field is smaller than its `hdrLen` field panics the
decoder instead of producing an error — the packets sent before the
panic still stay sent. -/
theorem C3_zlib_container_unwrap :
    (∀ (decompress : List Nat → Except Unit (List Nat))
       (msg buf : List Nat) (pkt : WsPacket) (rest : List Nat)
       (bufs : List (List Nat)) (pkts : List WsPacket),
       WsPacket.from_bytes msg = .value (.ok (pkt, rest)) →
       pkt.proto_ver = ProtoVer.ZlibBuf →
       decompress pkt.data = .ok buf →
       buf = bufs.flatten →
       List.Forall₂ encodesPacket bufs pkts →
       bufs ≠ [] →
       parse_pkt_inner decompress msg = (pkts, .value (.ok ()))) ∧
    (∀ (decompress : List Nat → Except Unit (List Nat))
       (msg : List Nat) (pkt : WsPacket) (rest : List Nat),
       WsPacket.from_bytes msg = .value (.ok (pkt, rest)) →
       pkt.proto_ver = ProtoVer.ZlibBuf →
       decompress pkt.data = .error () →
       parse_pkt_inner decompress msg =
         ([], .value (.error WsError.zlib))) ∧
    (∀ (bufs : List (List Nat)) (pkts : List WsPacket)
       (bad : List Nat) (e : DekuError),
       List.Forall₂ encodesPacket bufs pkts →
       bad ≠ [] →
       WsPacket.from_bytes bad = .value (.error e) →
       unwrapLoop (bufs.flatten ++ bad) = (pkts, .value (.error e))) ∧
    (∀ (bufs : List (List Nat)) (pkts : List WsPacket) (bad : List Nat),
       List.Forall₂ encodesPacket bufs pkts →
       WsPacket.from_bytes bad = .panicked →
       unwrapLoop (bufs.flatten ++ bad) = (pkts, .panicked)) := by
  refine ⟨?_, ?_, ?_, ?_⟩
  · intro decompress msg buf pkt rest bufs pkts hmsg hproto hz hbuf hfa hne
    rw [parse_pkt_inner, hmsg]
    show (if pkt.proto_ver = ProtoVer.ZlibBuf then _ else _) = _
    rw [if_pos hproto, hz]
    show (_, PanicOr.map _ _) = _
    rw [hbuf, unwrapLoop_join_ok hfa hne]
    rfl
  · intro decompress msg pkt rest hmsg hproto hz
    rw [parse_pkt_inner, hmsg]
    show (if pkt.proto_ver = ProtoVer.ZlibBuf then _ else _) = _
    rw [if_pos hproto, hz]
  · intro bufs pkts bad e hfa hne hbad
    exact unwrapLoop_join_err bad e hfa hne hbad
  · intro bufs pkts bad hfa hbad
    exact unwrapLoop_join_panic bad hfa hbad

/-- C3 witness: a concrete ZlibBuf outer frame whose (stubbed)
decompression holds exactly one concrete Notification packet. -/
theorem C3_zlib_witness :
    parse_pkt_inner
        (fun _ => .ok [0, 0, 0, 16, 0, 16, 0, 0, 0, 0, 0, 5, 0, 0, 0, 1])
        [0, 0, 0, 16, 0, 16, 0, 2, 0, 0, 0, 5, 0, 0, 0, 1] =
      ([⟨16, 16, ProtoVer.Json, Operation.Notification, 1, []⟩],
       .value (.ok ())) :=
  C3_zlib_container_unwrap.1
    (fun _ => .ok [0, 0, 0, 16, 0, 16, 0, 0, 0, 0, 0, 5, 0, 0, 0, 1])
    [0, 0, 0, 16, 0, 16, 0, 2, 0, 0, 0, 5, 0, 0, 0, 1]
    [0, 0, 0, 16, 0, 16, 0, 0, 0, 0, 0, 5, 0, 0, 0, 1]
    ⟨16, 16, ProtoVer.ZlibBuf, Operation.Notification, 1, []⟩ []
    [[0, 0, 0, 16, 0, 16, 0, 0, 0, 0, 0, 5, 0, 0, 0, 1]]
    [⟨16, 16, ProtoVer.Json, Operation.Notification, 1, []⟩]
    (by decide) (by decide) rfl rfl
    (List.Forall₂.cons
      (show WsPacket.from_bytes
          [0, 0, 0, 16, 0, 16, 0, 0, 0, 0, 0, 5, 0, 0, 0, 1] =
        .value (.ok
          (⟨16, 16, ProtoVer.Json, Operation.Notification, 1, []⟩, []))
        by decide)
      List.Forall₂.nil) (by decide)

/-- C4: in the supervisor's failure loop the very first report only
records `last_failed`; a later report more than 100 ms after the
previously recorded one rotates the host index by exactly 1 modulo
`host_list.len()` and reconnects; a report within 100 ms only updates
`last_failed`; hence `k` reports pairwise separated by more than 100 ms
advance the index by `k - 1` modulo the host count, and with a single
host the rotation reconnects to the same host (index 0). -/
theorem C4_failover_debounce :
    (∀ (s : SupervisorState) (t : Nat), s.last_failed = none →
       stepFailure s t = ({ s with last_failed := some t }, false)) ∧
    (∀ (s : SupervisorState) (t o : Nat), s.last_failed = some o →
       o + 100 < t →
       stepFailure s t =
         ({ s with srv_index := (s.srv_index + 1) % s.hosts_len,
                   last_failed := some t }, true)) ∧
    (∀ (s : SupervisorState) (t o : Nat), s.last_failed = some o →
       t ≤ o + 100 →
       stepFailure s t = ({ s with last_failed := some t }, false)) ∧
    (∀ (s : SupervisorState) (t : Nat) (ts : List Nat),
       s.last_failed = none → spacedFrom t ts = true →
       0 < s.hosts_len → s.srv_index < s.hosts_len →
       (runFailures s (t :: ts)).srv_index =
         (s.srv_index + ts.length) % s.hosts_len) ∧
    (∀ s : SupervisorState, s.hosts_len = 1 →
       (fail_over s).srv_index = 0) := by
  refine ⟨stepFailure_first, stepFailure_rotate, stepFailure_debounce,
    ?_, ?_⟩
  · intro s t ts h hsp hn hi
    simp only [runFailures]
    rw [stepFailure_first s t h]
    exact runFailures_spaced ts { s with last_failed := some t } t rfl
      hsp hn hi
  · intro s h
    simp [fail_over, h, Nat.mod_one]

/-- C4 witness: reports at t = 0 and t = 200 with two hosts — the first
arms, the second rotates the index from 0 to 1. -/
theorem C4_failover_witness :
    (runFailures ⟨0, none, 2⟩ [0, 200]).srv_index = (0 + 1) % 2 :=
  C4_failover_debounce.2.2.2.1 ⟨0, none, 2⟩ 0 [200] rfl (by decide)
    (by decide) (by decide)

/-- C7: for every body `b` serialized by `to_vec` into `payload` and
recovered by `from_slice` (serde's round-trip contract for a
JSON-serializable type), `decode_body` of `new_json b op` yields `b`:
the packet carries the payload verbatim, `proto_ver = Json`, and the
JSON branch of `decode_body` is taken. -/
theorem C7_json_body_roundtrip {T : Type}
    (to_vec : T → Except WsPacket.SerdeError (List Nat))
    (from_slice : List Nat → Except WsPacket.SerdeError T)
    (body : T) (operation : Operation) (payload : List Nat)
    (pkt : WsPacket)
    (hser : to_vec body = .ok payload)
    (hround : from_slice payload = .ok body)
    (hpkt : WsPacket.new_json to_vec body operation = .ok pkt) :
    pkt.decode_body from_slice = .value (.ok body) := by
  rw [WsPacket.new_json, hser] at hpkt
  injection hpkt with h1
  subst h1
  rw [WsPacket.decode_body]
  show (if ProtoVer.Json = ProtoVer.Json then _ else _) = _
  rw [if_pos rfl, hround]

/-- C7 witness: the body 7 under a decimal-ASCII JSON number codec. -/
theorem C7_json_witness :
    ((⟨17, 16, ProtoVer.Json, Operation.Entering, 1, [55]⟩ :
        WsPacket).decode_body
      (fun l => if l = [55] then .ok 7 else .error .failed)) =
      .value (.ok 7) :=
  C7_json_body_roundtrip (fun n => .ok [48 + n % 10])
    (fun l => if l = [55] then .ok 7 else .error .failed)
    7 Operation.Entering [55] _ (by decide) (by decide) (by decide)

/-- C8: `popularity` is `some v` exactly when the operation is
`HeartBeatReply` and the body has length exactly 4, `v` being the body
as a big-endian signed 32-bit integer, and `none` otherwise; the
concrete frame `00 00 00 14 00 10 00 01 00 00 00 03 00 00 00 01
00 00 27 10` decodes to a `HeartBeatReply` with popularity 10000. -/
theorem C8_popularity :
    (∀ (p : WsPacket) (v : Int),
       p.popularity = some v ↔
         (p.operation = Operation.HeartBeatReply ∧ p.data.length = 4 ∧
          v = WsPacket.i32FromBEBytes p.data)) ∧
    (∀ p : WsPacket,
       p.operation ≠ Operation.HeartBeatReply ∨ p.data.length ≠ 4 →
       p.popularity = none) ∧
    (∃ p : WsPacket,
       WsPacket.from_bytes
           [0, 0, 0, 20, 0, 16, 0, 1, 0, 0, 0, 3, 0, 0, 0, 1,
            0, 0, 39, 16] = .value (.ok (p, [])) ∧
       p.operation = Operation.HeartBeatReply ∧
       p.popularity = some 10000) := by
  refine ⟨?_, ?_, ?_⟩
  · intro p v
    rw [WsPacket.popularity]
    constructor
    · intro h
      by_cases h1 : p.operation = Operation.HeartBeatReply
      · by_cases h2 : p.data.length = 4
        · rw [if_pos h1, if_pos h2] at h
          exact ⟨h1, h2, (Option.some.inj h).symm⟩
        · rw [if_pos h1, if_neg h2] at h
          cases h
      · rw [if_neg h1] at h
        cases h
    · rintro ⟨h1, h2, h3⟩
      rw [if_pos h1, if_pos h2, h3]
  · intro p h
    rw [WsPacket.popularity]
    rcases h with h | h
    · rw [if_neg h]
    · by_cases h1 : p.operation = Operation.HeartBeatReply
      · rw [if_pos h1, if_neg h]
      · rw [if_neg h1]
  · exact ⟨⟨20, 16, ProtoVer.Int32BE, Operation.HeartBeatReply, 1,
      [0, 0, 39, 16]⟩, by decide, rfl, by decide⟩

/-- C8 witness: the iff applied to the decoded heartbeat-reply body
`[0, 0, 39, 16]`. -/
theorem C8_popularity_witness :
    (⟨20, 16, ProtoVer.Int32BE, Operation.HeartBeatReply, 1,
      [0, 0, 39, 16]⟩ : WsPacket).popularity = some 10000 :=
  (C8_popularity.1 _ 10000).mpr ⟨rfl, rfl, by decide⟩

/-- C9 counterexample: the claim states that a lookup envelope with
`code ≠ 0` makes `room_init`/`get_danmaku_info` fail with an
`UpstreamRejected`-style error so the caller never receives data. The
source never inspects `code`: with `code = -400` it returns the data
when present, and panics on `data.unwrap()` when absent — there is no
such error value at all. -/
theorem C9_counterexample :
    room_init (Except.ok (⟨-400, some "err", none, some 42⟩ :
        ApiResponse Nat) : Except Unit (ApiResponse Nat)) =
      LookupOutcome.success 42 ∧
    room_init (Except.ok (⟨-400, some "err", none, none⟩ :
        ApiResponse Nat) : Except Unit (ApiResponse Nat)) =
      LookupOutcome.panicked ∧
    (-400 : Int) ≠ 0 := by
  refine ⟨rfl, rfl, by decide⟩

/-- C9 (amended): `room_init` and `get_danmaku_info` never inspect
`code`; once the transport/JSON stage succeeds they return the `data`
field whenever present — even when `code ≠ 0` — and panic on
`Option::unwrap` when `data` is absent; transport/JSON errors propagate
as failures. -/
theorem C9_amended_lookup_ignores_code {E T : Type}
    (resp : ApiResponse T) (hcode : resp.code ≠ 0) :
    (∀ d : T, resp.data = some d →
       room_init (Except.ok resp : Except E (ApiResponse T)) =
         LookupOutcome.success d) ∧
    (resp.data = none →
       room_init (Except.ok resp : Except E (ApiResponse T)) =
         LookupOutcome.panicked) := by
  constructor
  · intro d hd
    rw [room_init]
    show (match resp.into_data with
          | .value d => LookupOutcome.success d
          | .panicked => LookupOutcome.panicked) = _
    rw [ApiResponse.into_data, hd]
  · intro hd
    rw [room_init]
    show (match resp.into_data with
          | .value d => LookupOutcome.success d
          | .panicked => LookupOutcome.panicked) = _
    rw [ApiResponse.into_data, hd]

/-- C9 (amended) witness: a `code = -400` envelope with data present
yields the data to the caller. -/
theorem C9_amended_witness :
    room_init (Except.ok (⟨-400, none, none, some 7⟩ :
        ApiResponse Nat) : Except Unit (ApiResponse Nat)) =
      LookupOutcome.success 7 :=
  (C9_amended_lookup_ignores_code _ (by decide)).1 7 rfl

/-- C10: the claim asserts `from_bytes` is total at the public
interface — a packet or a decode error, never a panic — specifically on
inputs whose `pktLen` field is smaller than their `hdrLen` field. In
fact the deku derive evaluates `count = pkt_len - hdr_len` (a debug
build panics right there; a release build wraps it to `2^64 - 16` on
this input) and pre-allocates `Vec::with_capacity(count)` before any
length check, which panics with a capacity overflow. Evaluated at the
16 bytes the source's own heartbeat emits (wire `pktLen = 0`,
`hdrLen = 16`). -/
theorem C10_decode_panics_on_underflow :
    WsPacket.from_bytes [0, 0, 0, 0, 0, 16, 0, 0, 0, 0, 0, 2, 0, 0, 0, 1] =
      PanicOr.panicked ∧
    WsPacket.pktLenField [0, 0, 0, 0, 0, 16, 0, 0, 0, 0, 0, 2, 0, 0, 0, 1] <
      WsPacket.hdrLenField
        [0, 0, 0, 0, 0, 16, 0, 0, 0, 0, 0, 2, 0, 0, 0, 1] := by
  constructor
  · decide
  · decide

end Bili
